import Mathlib

/-!
# Verification of the esbuild bundle-size diff tool

A shallow embedding of the single-file TypeScript source of
`esbuild-bundle-size-diff`.  The program reads two esbuild metafiles
(JSON manifests), aggregates output sizes per entrypoint
(`computeSizeByEntrypoint`), renders a markdown diff table (`diff`), and
either prints it (CLI mode) or posts it as a pull-request comment
(GitHub-Actions mode, `runAction`).

Modelling conventions:
* A JS object `Metafile.outputs` becomes a list of key/value pairs in
  insertion order; key uniqueness (guaranteed by `JSON.parse`) is taken
  as a hypothesis where it matters.
* JS numbers are modelled exactly: byte sizes are `Nat`, byte deltas are
  `Int`.  The floating-point expressions that the code feeds to
  `Number.prototype.toFixed` and `Intl.NumberFormat` are rendered by
  exact integer arithmetic implementing the same round-to-nearest,
  ties-away-from-zero rule on the exact rational value; `x/0` follows
  the JS special values (`Infinity` / `NaN`), which `toFixed` prints
  verbatim.
* `Math.floor(Math.log(bytes)/Math.log(1024))` is modelled as the exact
  base-1024 integer logarithm (for positive `bytes`).
* Async effects (file reads, the GitHub REST calls) become explicit
  state passing plus an event trace.
-/

namespace BundleDiff

/-- One value of the `Metafile.outputs` record: the fields of an esbuild
output that the program reads (`entryPoint`, `bytes`, `cssBundle`). -/
structure Output where
  entryPoint : Option String
  bytes : Nat
  cssBundle : Option String
deriving DecidableEq, Repr

/-- A parsed manifest: the `outputs` record as a key/value list in JS
object insertion order (output file path ↦ output). -/
abbrev Manifest := List (String × Output)

/-- JS property lookup `metafile.outputs[p]` (first binding wins; with
unique keys this is the binding of `p`). -/
def lookupOutput (m : Manifest) (p : String) : Option Output :=
  (m.find? (fun q => q.1 = p)).map (fun q => q.2)

/-- The paths (object keys) of a manifest. -/
def pathsOfManifest (m : Manifest) : List String :=
  m.map (fun q => q.1)

/-! ## GitHub client and comment operations -/

/-- The error message thrown by `getClient` when no token is found. -/
def tokenErrorMsg : String :=
  "GitHub token not found; looked in env.GITHUB_TOKEN and input.github_token"

/-- `getClient`: `core.getInput("github_token") || process.env.GITHUB_TOKEN`,
throwing when the result is falsy.  `core.getInput` yields `""` for an
unset input; the environment variable is `none` when unset.  The client
itself is represented by the token it wraps. -/
def getClient (inputToken : String) (envToken : Option String) : Except String String :=
  let githubToken := if inputToken = ("") then envToken.getD ("") else inputToken
  if githubToken = ("") then Except.error tokenErrorMsg else Except.ok githubToken

/-- The fixed marker string from `findComment`. -/
def identifier : String :=
  "<!-- esbuild-bundle-size-diff-comment -->"

/-- Does the second list start with the first? -/
def startsAux : List Char → List Char → Bool
  | [], _ => true
  | _ :: _, [] => false
  | c :: cs, d :: ds => c = d && startsAux cs ds

/-- `String.prototype.startsWith`, modelled on the character lists. -/
def jsStartsWith (s pre : String) : Bool :=
  startsAux pre.data s.data

/-- An issue comment: (id, body). -/
abbrev CommentRec := Nat × String

/-- `findComment`: scan the issue comments in order and return the id of
the first whose body starts with `identifier`. -/
def findComment (comments : List CommentRec) : Option Nat :=
  (comments.find? (fun c => jsStartsWith c.2 identifier)).map (fun c => c.1)

/-- `comment(message)`: update the comment found by `findComment`, or
create a new one (with fresh id `newId`) when none is found. -/
def commentOp (comments : List CommentRec) (newId : Nat) (message : String) :
    List CommentRec :=
  match findComment comments with
  | some cid => comments.map (fun c => if c.1 = cid then (c.1, message) else c)
  | none => comments ++ [(newId, message)]

/-- The comment body built by `run`: the template literal
`` `\n  ## Bundle size diff\n\n  ${resultMarkdownTable}\n  ` ``. -/
def runMessage (resultMarkdownTable : String) : String :=
  "\n  ## Bundle size diff\n\n  " ++ resultMarkdownTable ++ "\n  "

/-! ## Per-entrypoint size aggregation -/

/-- One iteration of the `forEach` loop in `computeSizeByEntrypoint`,
projected onto the list held at key `e` of the `result` record: an
output contributes only when its `entryPoint` is `e`; its own
`(path, bytes)` is always pushed, and its `cssBundle`, when it resolves
in `m.outputs`, is pushed unless a pair with that path is already
present (the `find` dedup check runs after the push of `path`). -/
def addOutput (m : Manifest) (e : String) (acc : List (String × Nat))
    (po : String × Output) : List (String × Nat) :=
  if po.2.entryPoint = some e then
    let acc1 := acc ++ [(po.1, po.2.bytes)]
    match po.2.cssBundle with
    | none => acc1
    | some b =>
      match lookupOutput m b with
      | none => acc1
      | some cssOutput =>
        if acc1.any (fun q => q.1 = b) then acc1
        else acc1 ++ [(b, cssOutput.bytes)]
  else acc

/-- The `forEach` loop: process the outputs in order, threading the
accumulated list for entrypoint `e`. -/
def sizeAux (m : Manifest) (e : String) : List (String × Output) → List (String × Nat) → List (String × Nat)
  | [], acc => acc
  | po :: rest, acc => sizeAux m e rest (addOutput m e acc po)

/-- `computeSizeByEntrypoint`, read at key `e`: the `{path, bytes}` list
the function records for entrypoint `e` (`[]` when `e` is absent). -/
def computeSizeByEntrypoint (m : Manifest) (e : String) : List (String × Nat) :=
  sizeAux m e m []

/-- Helper for `setDedup`: keep the elements not yet `seen`, first
occurrences first. -/
def setDedupAux (seen : List String) : List String → List String
  | [] => []
  | x :: xs => if x ∈ seen then setDedupAux seen xs else x :: setDedupAux (x :: seen) xs

/-- `[...new Set(l)]`: drop duplicates, keeping first occurrences in
order. -/
def setDedup (l : List String) : List String :=
  setDedupAux [] l

/-- The keys of the `result` record of `computeSizeByEntrypoint`, in JS
insertion order: the entrypoints named by the outputs, first occurrence
first. -/
def keysOf (m : Manifest) : List String :=
  setDedup (m.filterMap (fun po => po.2.entryPoint))

/-! ## Number formatting (`bytesToSize`, `toFixed`) -/

/-- Fuel-driven base-1024 integer logarithm; `log1024Aux n n` computes
`Nat.log 1024 n` for `n ≥ 1` (the quotient shrinks strictly, so `n`
steps of fuel always suffice). -/
def log1024Aux : Nat → Nat → Nat
  | 0, _ => 0
  | fuel + 1, n => if n < 1024 then 0 else 1 + log1024Aux fuel (n / 1024)

/-- `Math.floor(Math.log(n)/Math.log(1024))` for a positive integer `n`. -/
def log1024 (n : Nat) : Nat :=
  log1024Aux n n

/-- The unit names of `bytesToSize` (note the source list skips
`gigabyte`). -/
def units : List String :=
  ["byte", "kilobyte", "megabyte", "terabyte", "petabyte"]

/-- The narrow unit symbols `Intl.NumberFormat("en", {style: "unit",
unitDisplay: "narrow"})` prints for these units (an unknown unit name
would make the JS constructor throw; it is mapped to `""` here). -/
def unitNarrow (u : String) : String :=
  if u = ("byte") then ("B")
  else if u = ("kilobyte") then ("kB")
  else if u = ("megabyte") then ("MB")
  else if u = ("terabyte") then ("TB")
  else if u = ("petabyte") then ("PB")
  else ("")

/-- Left-pad the decimal representation of `n < 1000` to three digits
(for a non-leading `en` digit group). -/
def pad3 (n : Nat) : String :=
  if n < 10 then ("00") ++ Nat.repr n
  else if n < 100 then ("0") ++ Nat.repr n
  else Nat.repr n

/-- `en` digit grouping of an integer part (a single separator, enough
for any value below 10^6; `bytesToSize` only formats values below
1024). -/
def commaGroup (ip : Nat) : String :=
  if ip < 1000 then Nat.repr ip
  else Nat.repr (ip / 1000) ++ (",") ++ pad3 (ip % 1000)

/-- `Intl.NumberFormat("en", {maximumFractionDigits: 2}).format(bytes/q)`
for positive integers `bytes` and `q`: round the exact value of
`(bytes/q)·100` to the nearest integer `n`, ties away from zero (the
default `halfExpand` mode) — `n = ⌊(bytes·200 + q)/(2q)⌋` — then print
`n/100` with grouping and up to two fraction digits, trailing zeros
stripped. -/
def intlFmt (bytes q : Nat) : String :=
  let n := (bytes * 200 + q) / (2 * q)
  let ip := n / 100
  let fr := n % 100
  commaGroup ip ++
    (if fr = 0 then ("")
     else if fr % 10 = 0 then (".") ++ Nat.repr (fr / 10)
     else (".") ++ (if fr < 10 then ("0") ++ Nat.repr fr else Nat.repr fr))

/-- `bytesToSize`.  For negative input `Math.log` is `NaN`, the unit
falls back to `byte`, and the scaled value `bytes / 1024 ** NaN` is
`NaN`, printed `NaNB`.  For `0` the unit also falls back to `byte` and
the formatted value is `0`.  For positive input the unit index is the
base-1024 integer logarithm, the unit is looked up in `units` (the
source caps the index with `units.length - 1` only when it exceeds
`units.length`, so index `5` reads past the end: modelled as the unit
name `""`), and the value `bytes / 1024^idx` is formatted with at most
two fraction digits. -/
def bytesToSize (bytes : Int) : String :=
  if bytes < 0 then ("NaNB")
  else if bytes = 0 then ("0B")
  else
    let bn := bytes.toNat
    let unitIdx := log1024 bn
    let unit :=
      if unitIdx > units.length then units.getD (units.length - 1) ("")
      else units.getD unitIdx ("")
    intlFmt bn (1024 ^ unitIdx) ++ unitNarrow unit

/-- Two-fraction-digit body of `Number.prototype.toFixed(2)` for the
non-negative rounded value `n` (in hundredths). -/
def fix2 (n : Nat) : String :=
  Nat.repr (n / 100) ++ (".") ++
    (if n % 100 < 10 then ("0") ++ Nat.repr (n % 100) else Nat.repr (n % 100))

/-- The printed percentage `(((p − b) / b) * 100).toFixed(2)` for byte
totals `b` (old) and `p` (new).  When `b = 0` JS division yields `NaN`
(if `p = 0`) or `Infinity`, printed verbatim by `toFixed`.  Otherwise
`toFixed(2)` takes the sign apart and rounds `|p − b|·100/b · 100` to
the nearest integer, ties towards larger, i.e.
`n = ⌊(|p − b|·20000 + b)/(2b)⌋`. -/
def pctDisplay (b p : Nat) : String :=
  if b = 0 then (if p = 0 then ("NaN") else ("Infinity"))
  else
    let dAbs := if p < b then b - p else p - b
    let n := (dAbs * 20000 + b) / (2 * b)
    (if p < b then ("-") else ("")) ++ fix2 n

/-! ## Table rendering -/

/-- `escapePipes` on the character list: `str.replace(/\|/g, "\\|")`. -/
def escapePipesL (l : List Char) : List Char :=
  l.flatMap (fun c => if c = '|' then ['\\', '|'] else [c])

/-- `escapePipes`. -/
def escapePipes (s : String) : String :=
  String.mk (escapePipesL s.data)

/-- The `<sub>` wrapper applied to every cell of a per-path row. -/
def subWrap (s : String) : String :=
  "<sub>" ++ s ++ "</sub>"

/-- Lexicographic comparison of character lists by code unit, the order
`Array.prototype.sort()` uses on strings. -/
def lexLe : List Char → List Char → Bool
  | [], _ => true
  | _ :: _, [] => false
  | a :: as, b :: bs =>
    if a.toNat < b.toNat then true
    else if b.toNat < a.toNat then false
    else lexLe as bs

/-- String comparison by code unit (`a ≤ b` of JS default sort). -/
def strLeB (a b : String) : Bool :=
  lexLe a.data b.data

/-- `.sort()` on an array of strings. -/
def sortStr (l : List String) : List String :=
  l.insertionSort (fun a b => strLeB a b = true)

/-- The fixed column headings. -/
def headerRow : List String :=
  ["Entrypoint", "Path", "Old size", "New size", "Diff"]

/-- The markdown separator row `columnHeadings.map(() => "---")`. -/
def separatorRow : List String :=
  headerRow.map (fun _ => ("---"))

/-- The sorted, deduplicated union of the paths of the two per-entrypoint
size lists: `[...new Set([...baseSize.map(p), ...prSize.map(p)])].sort()`. -/
def pathsList (bs ps : List (String × Nat)) : List String :=
  sortStr (setDedup (bs.map (fun q => q.1) ++ ps.map (fun q => q.1)))

/-- The rows pushed for one entrypoint: the summary row (entrypoint,
`"*"`, old/new totals, delta with percentage), then one row per path of
either manifest.  `pct` is the entrypoint-level `percentChange`, which
the source also interpolates into every per-path diff cell. -/
def entrypointRows (bs ps : List (String × Nat)) (e : String) : List (List String) :=
  let baseSizeTotal := (bs.map (fun q => q.2)).sum
  let prSizeTotal := (ps.map (fun q => q.2)).sum
  let pct := pctDisplay baseSizeTotal prSizeTotal
  let summary :=
    [e, "*", bytesToSize (baseSizeTotal : Int), bytesToSize (prSizeTotal : Int),
      bytesToSize ((prSizeTotal : Int) - (baseSizeTotal : Int)) ++ " (" ++ pct ++ "%)"]
  summary ::
    (pathsList bs ps).map (fun p =>
      let baseItem := bs.find? (fun q => q.1 = p)
      let prItem := ps.find? (fun q => q.1 = p)
      ([(""), p,
        (match baseItem with
         | some q => bytesToSize (q.2 : Int)
         | none => ("n/a")),
        (match prItem with
         | some q => bytesToSize (q.2 : Int)
         | none => ("n/a")),
        (match baseItem, prItem with
         | none, _ => ("new")
         | some _, none => ("deleted")
         | some bq, some pq =>
           bytesToSize ((pq.2 : Int) - (bq.2 : Int)) ++ " (" ++ pct ++ "%)")]).map subWrap)

/-- `[...new Set([...Object.keys(baseSizes), ...Object.keys(prSizes)])].sort()`. -/
def entrypointsList (base pr : Manifest) : List String :=
  sortStr (setDedup (keysOf base ++ keysOf pr))

/-- The `result` array of rows built by `diff` before joining. -/
def diffRows (base pr : Manifest) : List (List String) :=
  headerRow :: separatorRow ::
    (entrypointsList base pr).flatMap (fun e =>
      entrypointRows (computeSizeByEntrypoint base e) (computeSizeByEntrypoint pr e) e)

/-- One rendered line: `"| " + row.map(escapePipes).join(" | ") + " |"`. -/
def renderRow (row : List String) : String :=
  "| " ++ String.intercalate (" | ") (row.map escapePipes) ++ " |"

/-- `diff`: the final markdown table. -/
def diff (base pr : Manifest) : String :=
  String.intercalate ("\n") ((diffRows base pr).map renderRow)

/-! ## The two entry points (`run` for GitHub Actions, `main` for CLI) -/

/-- What the file system holds at a manifest path. -/
inductive FileContent
  | missing
  | invalid
  | valid (m : Manifest)
deriving DecidableEq

/-- A thrown JS error: `fs.readFileSync` (missing file), `JSON.parse`
(malformed content), or the `getClient` token error. -/
inductive JsError
  | readError
  | parseError
  | tokenError (msg : String)
deriving DecidableEq, Repr

/-- `JSON.parse(fs.readFileSync(path, "utf8"))`: the underlying read or
parse failure propagates; valid content parses to its manifest. -/
def readAndParse : FileContent → Except JsError Manifest
  | FileContent.missing => Except.error JsError.readError
  | FileContent.invalid => Except.error JsError.parseError
  | FileContent.valid m => Except.ok m

/-- `main`: read and parse both manifests, then print the diff table.
The returned string is what reaches `console.log`. -/
def mainAction (fcBase fcPr : FileContent) : Except JsError String :=
  match readAndParse fcBase with
  | Except.error e => Except.error e
  | Except.ok baseMetafile =>
    match readAndParse fcPr with
    | Except.error e => Except.error e
    | Except.ok prMetafile => Except.ok (diff baseMetafile prMetafile)

/-- The observable steps `run` performs, in order. -/
inductive RunEvent
  | readBase
  | readPr
  | computedDiff
  | listedComments
  | updatedComment
  | postedComment
deriving DecidableEq, Repr

/-- `run`: read both manifests, compute the diff, then `comment(...)`
(which obtains the client — failing there when no token is available —
lists the comments, and updates the marked comment or creates a new
one).  Returns the trace of completed steps and the final comment list
(or the propagated error). -/
def runAction (inputToken : String) (envToken : Option String)
    (fcBase fcPr : FileContent) (comments : List CommentRec) (newId : Nat) :
    List RunEvent × Except JsError (List CommentRec) :=
  match readAndParse fcBase with
  | Except.error e => ([], Except.error e)
  | Except.ok baseMetafile =>
    match readAndParse fcPr with
    | Except.error e => ([RunEvent.readBase], Except.error e)
    | Except.ok prMetafile =>
      let resultMarkdownTable := diff baseMetafile prMetafile
      let message := runMessage resultMarkdownTable
      match getClient inputToken envToken with
      | Except.error e =>
        ([RunEvent.readBase, RunEvent.readPr, RunEvent.computedDiff],
          Except.error (JsError.tokenError e))
      | Except.ok _ =>
        match findComment comments with
        | some cid =>
          ([RunEvent.readBase, RunEvent.readPr, RunEvent.computedDiff,
              RunEvent.listedComments, RunEvent.updatedComment],
            Except.ok (comments.map (fun c => if c.1 = cid then (c.1, message) else c)))
        | none =>
          ([RunEvent.readBase, RunEvent.readPr, RunEvent.computedDiff,
              RunEvent.listedComments, RunEvent.postedComment],
            Except.ok (comments ++ [(newId, message)]))

/-! ## Counting unescaped pipes (for the markdown-escaping claim) -/

/-- Scan a character list and count the `|` characters that are not
immediately preceded by a backslash; `bs` records whether the previous
character was a backslash. -/
def cuB : Bool → List Char → Nat
  | _, [] => 0
  | bs, c :: rest => (if c = '|' ∧ bs = false then 1 else 0) + cuB (c = '\\') rest

/-- The number of unescaped column separators in a rendered line. -/
def countUnescaped (l : List Char) : Nat :=
  cuB false l

/-! ## Lemmas: deduplication and sorting -/

theorem mem_setDedupAux (a : String) :
    ∀ (l seen : List String), a ∈ setDedupAux seen l ↔ a ∈ l ∧ a ∉ seen := by
  intro l
  induction l with
  | nil => intro seen; simp [setDedupAux]
  | cons x xs ih =>
    intro seen
    by_cases hx : x ∈ seen
    · simp only [setDedupAux, if_pos hx, ih, List.mem_cons]
      constructor
      · rintro ⟨h1, h2⟩; exact ⟨Or.inr h1, h2⟩
      · rintro ⟨rfl | h1, h2⟩
        · exact absurd hx h2
        · exact ⟨h1, h2⟩
    · simp only [setDedupAux, if_neg hx, List.mem_cons, ih]
      constructor
      · rintro (rfl | ⟨h1, h2⟩)
        · exact ⟨Or.inl rfl, hx⟩
        · exact ⟨Or.inr h1, fun hs => h2 (Or.inr hs)⟩
      · rintro ⟨rfl | h1, h2⟩
        · exact Or.inl rfl
        · by_cases hax : a = x
          · exact Or.inl hax
          · refine Or.inr ⟨h1, fun hs => ?_⟩
            rcases hs with h | h
            · exact hax h
            · exact h2 h

theorem nodup_setDedupAux : ∀ (l seen : List String), (setDedupAux seen l).Nodup := by
  intro l
  induction l with
  | nil => intro seen; simp [setDedupAux]
  | cons x xs ih =>
    intro seen
    by_cases hx : x ∈ seen
    · simpa [setDedupAux, hx] using ih seen
    · simp only [setDedupAux, if_neg hx]
      refine List.nodup_cons.mpr ⟨fun hmem => ?_, ih _⟩
      exact ((mem_setDedupAux x xs (x :: seen)).mp hmem).2 (List.mem_cons_self x seen)

theorem mem_setDedup {a : String} {l : List String} : a ∈ setDedup l ↔ a ∈ l := by
  simp [setDedup, mem_setDedupAux]

theorem nodup_setDedup (l : List String) : (setDedup l).Nodup :=
  nodup_setDedupAux l []

theorem setDedup_ne_nil {l : List String} (h : l ≠ []) : setDedup l ≠ [] := by
  cases l with
  | nil => exact absurd rfl h
  | cons x xs => simp [setDedup, setDedupAux]

theorem lexLe_total : ∀ xs ys : List Char, lexLe xs ys = true ∨ lexLe ys xs = true := by
  intro xs
  induction xs with
  | nil => intro ys; left; rfl
  | cons a as ih =>
    intro ys
    cases ys with
    | nil => right; rfl
    | cons b bs =>
      rcases Nat.lt_trichotomy a.toNat b.toNat with h | h | h
      · left; simp [lexLe, h]
      · have h2 : ¬ a.toNat < b.toNat := by omega
        have h3 : ¬ b.toNat < a.toNat := by omega
        rcases ih bs with hl | hr
        · left; simp [lexLe, h2, h3, hl]
        · right; simp [lexLe, h2, h3, hr]
      · right; simp [lexLe, h]

theorem lexLe_trans :
    ∀ xs ys zs : List Char,
      lexLe xs ys = true → lexLe ys zs = true → lexLe xs zs = true := by
  intro xs
  induction xs with
  | nil => intro ys zs _ _; rfl
  | cons a as ih =>
    intro ys zs h1 h2
    cases ys with
    | nil => simp [lexLe] at h1
    | cons b bs =>
      cases zs with
      | nil => simp [lexLe] at h2
      | cons c cs =>
        simp only [lexLe] at h1 h2 ⊢
        by_cases hab : a.toNat < b.toNat
        · by_cases hbc : b.toNat < c.toNat
          · simp [show a.toNat < c.toNat by omega]
          · by_cases hcb : c.toNat < b.toNat
            · simp [hbc, hcb] at h2
            · simp [show a.toNat < c.toNat by omega]
        · by_cases hba : b.toNat < a.toNat
          · simp [hab, hba] at h1
          · simp only [if_neg hab, if_neg hba] at h1
            by_cases hbc : b.toNat < c.toNat
            · simp [show a.toNat < c.toNat by omega]
            · by_cases hcb : c.toNat < b.toNat
              · simp [hbc, hcb] at h2
              · simp only [if_neg hbc, if_neg hcb] at h2
                have hac : ¬ a.toNat < c.toNat := by omega
                have hca : ¬ c.toNat < a.toNat := by omega
                simp only [if_neg hac, if_neg hca]
                exact ih bs cs h1 h2

instance : IsTotal String (fun a b => strLeB a b = true) :=
  ⟨fun a b => lexLe_total a.data b.data⟩

instance : IsTrans String (fun a b => strLeB a b = true) :=
  ⟨fun a b c => lexLe_trans a.data b.data c.data⟩

theorem sorted_sortStr (l : List String) :
    (sortStr l).Sorted (fun a b => strLeB a b = true) :=
  List.sorted_insertionSort _ l

theorem mem_sortStr {a : String} {l : List String} : a ∈ sortStr l ↔ a ∈ l :=
  (List.perm_insertionSort _ l).mem_iff

theorem nodup_sortStr {l : List String} (h : l.Nodup) : (sortStr l).Nodup :=
  (List.perm_insertionSort _ l).nodup_iff.mpr h

theorem sortStr_ne_nil {l : List String} (h : l ≠ []) : sortStr l ≠ [] := by
  intro hs
  apply h
  have hlen := (List.perm_insertionSort (fun a b => strLeB a b = true) l).length_eq
  simp only [sortStr] at hs
  rw [hs] at hlen
  exact List.length_eq_zero.mp (by simpa using hlen.symm)

theorem mem_keysOf {m : Manifest} {e : String} :
    e ∈ keysOf m ↔ ∃ po ∈ m, po.2.entryPoint = some e := by
  simp [keysOf, mem_setDedup, List.mem_filterMap]

/-- C8.  The rendered table is the fixed header row, the fixed separator
row, and then one block per entrypoint: the entrypoints listed are the
union (without duplicates, sorted by code unit) of the entrypoints named
by the outputs of the two manifests, and the paths listed inside the
block of entrypoint `e` are the union (without duplicates, sorted by
code unit) of the paths of the two per-entrypoint size lists. -/
theorem C8_table_structure (base pr : Manifest) :
    diffRows base pr =
      headerRow :: separatorRow ::
        (entrypointsList base pr).flatMap (fun e =>
          entrypointRows (computeSizeByEntrypoint base e) (computeSizeByEntrypoint pr e) e)
    ∧ (entrypointsList base pr).Sorted (fun a b => strLeB a b = true)
    ∧ (entrypointsList base pr).Nodup
    ∧ (∀ e, e ∈ entrypointsList base pr ↔
        (∃ po ∈ base, po.2.entryPoint = some e) ∨ (∃ po ∈ pr, po.2.entryPoint = some e))
    ∧ (∀ e,
        (pathsList (computeSizeByEntrypoint base e) (computeSizeByEntrypoint pr e)).Sorted
            (fun a b => strLeB a b = true)
        ∧ (pathsList (computeSizeByEntrypoint base e) (computeSizeByEntrypoint pr e)).Nodup
        ∧ (∀ q,
            q ∈ pathsList (computeSizeByEntrypoint base e) (computeSizeByEntrypoint pr e) ↔
              q ∈ (computeSizeByEntrypoint base e).map (fun x => x.1)
                ∨ q ∈ (computeSizeByEntrypoint pr e).map (fun x => x.1))) := by
  refine ⟨rfl, sorted_sortStr _, nodup_sortStr (nodup_setDedup _), ?_, ?_⟩
  · intro e
    simp [entrypointsList, mem_sortStr, mem_setDedup, mem_keysOf]
  · intro e
    refine ⟨sorted_sortStr _, nodup_sortStr (nodup_setDedup _), ?_⟩
    intro q
    simp [pathsList, mem_sortStr, mem_setDedup]

/-! ## Lemmas: the aggregation loop -/

theorem addOutput_of_ne {m : Manifest} {e : String} {acc : List (String × Nat)}
    {po : String × Output} (h : ¬ po.2.entryPoint = some e) :
    addOutput m e acc po = acc := by
  simp [addOutput, h]

theorem addOutput_ne_nil_of_ep {m : Manifest} {e : String} {acc : List (String × Nat)}
    {po : String × Output} (h : po.2.entryPoint = some e) :
    addOutput m e acc po ≠ [] := by
  simp only [addOutput, if_pos h]
  split
  · simp
  · split
    · simp
    · split
      · simp
      · simp

theorem addOutput_ne_nil_of_acc {m : Manifest} {e : String} {acc : List (String × Nat)}
    {po : String × Output} (h : acc ≠ []) :
    addOutput m e acc po ≠ [] := by
  by_cases hp : po.2.entryPoint = some e
  · exact addOutput_ne_nil_of_ep hp
  · rw [addOutput_of_ne hp]; exact h

theorem sizeAux_nil (m : Manifest) (e : String) :
    ∀ (rest : List (String × Output)) (acc : List (String × Nat)),
      (∀ po ∈ rest, ¬ po.2.entryPoint = some e) → sizeAux m e rest acc = acc := by
  intro rest
  induction rest with
  | nil => intro acc _; rfl
  | cons po rest ih =>
    intro acc h
    simp only [sizeAux]
    rw [addOutput_of_ne (h po (List.mem_cons_self po rest))]
    exact ih acc (fun q hq => h q (List.mem_cons_of_mem po hq))

theorem sizeAux_ne_nil (m : Manifest) (e : String) :
    ∀ (rest : List (String × Output)) (acc : List (String × Nat)),
      (acc ≠ [] ∨ ∃ po ∈ rest, po.2.entryPoint = some e) → sizeAux m e rest acc ≠ [] := by
  intro rest
  induction rest with
  | nil =>
    intro acc h
    rcases h with h | ⟨po, hpo, _⟩
    · exact h
    · exact absurd hpo (List.not_mem_nil po)
  | cons po rest ih =>
    intro acc h
    simp only [sizeAux]
    apply ih
    rcases h with h | ⟨q, hq, he⟩
    · exact Or.inl (addOutput_ne_nil_of_acc h)
    · rcases List.mem_cons.mp hq with rfl | hq2
      · exact Or.inl (addOutput_ne_nil_of_ep he)
      · exact Or.inr ⟨q, hq2, he⟩

theorem computeSize_eq_nil_iff (m : Manifest) (e : String) :
    computeSizeByEntrypoint m e = [] ↔ e ∉ keysOf m := by
  constructor
  · intro h hk
    rcases mem_keysOf.mp hk with ⟨po, hpo, hep⟩
    exact sizeAux_ne_nil m e m [] (Or.inr ⟨po, hpo, hep⟩) h
  · intro hk
    apply sizeAux_nil
    intro po hpo hep
    exact hk (mem_keysOf.mpr ⟨po, hpo, hep⟩)

theorem computeSize_ne_nil {m : Manifest} {e : String} (h : e ∈ keysOf m) :
    computeSizeByEntrypoint m e ≠ [] := by
  intro hnil
  exact (computeSize_eq_nil_iff m e).mp hnil h

/-- C3.  An entrypoint present in only one manifest yields at least one
per-path row, and every one of its per-path rows carries the mark `new`
(present only in the new/pr manifest) or `deleted` (present only in the
old/base manifest) in the Diff column. -/
theorem C3_only_in_one_marked (base pr : Manifest) (e : String) :
    (e ∉ keysOf base → e ∈ keysOf pr →
      (entrypointRows (computeSizeByEntrypoint base e) (computeSizeByEntrypoint pr e) e).tail ≠ []
      ∧ ∀ row ∈ (entrypointRows (computeSizeByEntrypoint base e)
            (computeSizeByEntrypoint pr e) e).tail,
          row.get? 4 = some (subWrap ("new")))
    ∧ (e ∈ keysOf base → e ∉ keysOf pr →
      (entrypointRows (computeSizeByEntrypoint base e) (computeSizeByEntrypoint pr e) e).tail ≠ []
      ∧ ∀ row ∈ (entrypointRows (computeSizeByEntrypoint base e)
            (computeSizeByEntrypoint pr e) e).tail,
          row.get? 4 = some (subWrap ("deleted"))) := by
  constructor
  · intro hb hp
    have hbs : computeSizeByEntrypoint base e = [] := (computeSize_eq_nil_iff base e).mpr hb
    have hps : computeSizeByEntrypoint pr e ≠ [] := computeSize_ne_nil hp
    rw [hbs]
    constructor
    · simp only [entrypointRows, List.tail_cons]
      intro hmap
      rcases List.map_eq_nil_iff.mp hmap with hpaths
      apply sortStr_ne_nil (l := setDedup (([] : List (String × Nat)).map (fun q => q.1)
          ++ (computeSizeByEntrypoint pr e).map (fun q => q.1)))
      · apply setDedup_ne_nil
        simp [List.map_eq_nil_iff, hps]
      · exact hpaths
    · intro row hrow
      simp only [entrypointRows, List.tail_cons, List.mem_map] at hrow
      rcases hrow with ⟨p, _, rfl⟩
      rfl
  · intro hb hp
    have hps : computeSizeByEntrypoint pr e = [] := (computeSize_eq_nil_iff pr e).mpr hp
    have hbs : computeSizeByEntrypoint base e ≠ [] := computeSize_ne_nil hb
    rw [hps]
    constructor
    · simp only [entrypointRows, List.tail_cons]
      intro hmap
      rcases List.map_eq_nil_iff.mp hmap with hpaths
      apply sortStr_ne_nil (l := setDedup ((computeSizeByEntrypoint base e).map (fun q => q.1)
          ++ ([] : List (String × Nat)).map (fun q => q.1)))
      · apply setDedup_ne_nil
        simp [List.map_eq_nil_iff, hbs]
      · exact hpaths
    · intro row hrow
      simp only [entrypointRows, List.tail_cons, List.mem_map] at hrow
      rcases hrow with ⟨p, hpmem, rfl⟩
      have hpfst : p ∈ (computeSizeByEntrypoint base e).map (fun q => q.1) := by
        have := mem_sortStr.mp hpmem
        rw [mem_setDedup] at this
        simpa using this
      rcases List.mem_map.mp hpfst with ⟨q, hq, rfl⟩
      have hfind : ((computeSizeByEntrypoint base e).find? (fun x => x.1 = q.1)).isSome := by
        rw [List.find?_isSome]
        exact ⟨q, hq, by simp⟩
      rcases Option.isSome_iff_exists.mp hfind with ⟨bq, hbq⟩
      simp [pathsList, hbq]

/-- Base manifest for the C3 instance: only entrypoint `olde`. -/
def mOld : Manifest :=
  [(("x.js"), ⟨some ("olde"), 5, none⟩)]

/-- New manifest for the C3 instance: only entrypoint `newe`. -/
def mNew : Manifest :=
  [(("y.js"), ⟨some ("newe"), 6, none⟩)]

theorem C3_only_in_one_marked_witness :
    ((entrypointRows (computeSizeByEntrypoint mOld ("newe"))
          (computeSizeByEntrypoint mNew ("newe")) ("newe")).tail ≠ []
      ∧ ∀ row ∈ (entrypointRows (computeSizeByEntrypoint mOld ("newe"))
            (computeSizeByEntrypoint mNew ("newe")) ("newe")).tail,
          row.get? 4 = some (subWrap ("new")))
    ∧ ((entrypointRows (computeSizeByEntrypoint mOld ("olde"))
          (computeSizeByEntrypoint mNew ("olde")) ("olde")).tail ≠ []
      ∧ ∀ row ∈ (entrypointRows (computeSizeByEntrypoint mOld ("olde"))
            (computeSizeByEntrypoint mNew ("olde")) ("olde")).tail,
          row.get? 4 = some (subWrap ("deleted"))) :=
  ⟨(C3_only_in_one_marked mOld mNew ("newe")).1 (by decide) (by decide),
    (C3_only_in_one_marked mOld mNew ("olde")).2 (by decide) (by decide)⟩

/-! ## Lemmas: the self-diff percentage -/

theorem bytesToSize_zero : bytesToSize 0 = ("0B") := by decide

theorem pctDisplay_self {t : Nat} (h : t ≠ 0) : pctDisplay t t = ("0.00") := by
  have h2 : t / (2 * t) = 0 := Nat.div_eq_of_lt (by omega)
  simp only [pctDisplay, if_neg h, ite_self, Nat.sub_self, Nat.lt_irrefl, if_neg (Nat.lt_irrefl t),
    Nat.zero_mul, Nat.zero_add, h2]
  decide

/-- C4 (amended).  Diffing a manifest against itself: every row other
than the header and separator rows displays the percentage `0.00%` in
its Diff cell (`0B (0.00%)`, wrapped in `<sub>` for per-path rows) —
provided every listed entrypoint has a nonzero aggregated size (a zero
total makes the JS expression `0/0` produce `NaN`). -/
theorem C4_self_diff_zero_percent (m : Manifest)
    (h : ∀ e ∈ entrypointsList m m,
      ((computeSizeByEntrypoint m e).map (fun q => q.2)).sum ≠ 0) :
    ∀ row ∈ diffRows m m,
      row = headerRow ∨ row = separatorRow ∨
        row.get? 4 = some ("0B (0.00%)") ∨
        row.get? 4 = some (subWrap ("0B (0.00%)")) := by
  intro row hrow
  simp only [diffRows, List.mem_cons] at hrow
  rcases hrow with rfl | rfl | hrow
  · exact Or.inl rfl
  · exact Or.inr (Or.inl rfl)
  · rcases List.mem_flatMap.mp hrow with ⟨e, he, hre⟩
    have ht := h e he
    simp only [entrypointRows, List.mem_cons] at hre
    rcases hre with rfl | hre
    · right; right; left
      simp only [List.get?, pctDisplay_self ht]
      rw [sub_self, bytesToSize_zero]
      decide
    · right; right; right
      rcases List.mem_map.mp hre with ⟨p, hp, rfl⟩
      have hpfst : p ∈ (computeSizeByEntrypoint m e).map (fun q => q.1) := by
        have hmem := mem_sortStr.mp hp
        rw [mem_setDedup] at hmem
        simpa using hmem
      have hfind : ((computeSizeByEntrypoint m e).find? (fun x => x.1 = p)).isSome := by
        rw [List.find?_isSome]
        rcases List.mem_map.mp hpfst with ⟨q0, hq0, rfl⟩
        exact ⟨q0, hq0, by simp⟩
      rcases Option.isSome_iff_exists.mp hfind with ⟨bq, hbq⟩
      simp only [hbq, List.get?, pctDisplay_self ht]
      rw [sub_self, bytesToSize_zero]
      decide

/-- Concrete instance for `C4_self_diff_zero_percent`: a one-entrypoint
manifest with nonzero size diffs against itself to `0.00%` rows. -/
def mPos : Manifest :=
  [(("a.js"), ⟨some ("e"), 100, none⟩)]

theorem C4_self_diff_zero_percent_witness :
    (∀ e ∈ entrypointsList mPos mPos,
      ((computeSizeByEntrypoint mPos e).map (fun q => q.2)).sum ≠ 0)
    ∧ ∀ row ∈ diffRows mPos mPos,
        row = headerRow ∨ row = separatorRow ∨
          row.get? 4 = some ("0B (0.00%)") ∨
          row.get? 4 = some (subWrap ("0B (0.00%)")) :=
  ⟨by decide, C4_self_diff_zero_percent mPos (by decide)⟩

/-- An entrypoint whose single output has zero bytes. -/
def mZero : Manifest :=
  [(("a.js"), ⟨some ("e"), 0, none⟩)]

/-- C4 counterexample: diffing `mZero` against itself renders the
summary row of entrypoint `e` with Diff cell `0B (NaN%)` (JS computes
`0/0 = NaN`), not `0.00%`. -/
theorem C4_counterexample :
    (diffRows mZero mZero).get? 2 =
      some [("e"), ("*"), ("0B"), ("0B"), ("0B (NaN%)")]
    ∧ ("0B (NaN%)") ≠ ("0B (0.00%)") := by decide

/-! ## C1: the per-path percentage -/

/-- Base manifest of the C1 failing input: entrypoint `e` has outputs
`a.js` (100 bytes) and `b.js` (100 bytes). -/
def mBase1 : Manifest :=
  [(("a.js"), ⟨some ("e"), 100, none⟩), (("b.js"), ⟨some ("e"), 100, none⟩)]

/-- New manifest of the C1 failing input: `a.js` grew to 200 bytes. -/
def mPr1 : Manifest :=
  [(("a.js"), ⟨some ("e"), 200, none⟩), (("b.js"), ⟨some ("e"), 100, none⟩)]

/-- C1 (code bug).  Entrypoint `e` grows 200 → 300 bytes, i.e. +50.00%,
and the summary row correctly prints `50.00%`.  The per-path row for
`a.js` compares 100 to 200 bytes — by the spec formula
`(new−old)/old×100 = 100.00` — yet also prints `50.00%`: the source
recomputes `diffSizeTotal` per path but keeps interpolating the
entrypoint-level `percentChange` into every per-path Diff cell. -/
theorem C1_path_row_percent_bug :
    (diffRows mBase1 mPr1).get? 2 =
      some [("e"), ("*"), ("200B"), ("300B"), ("100B (50.00%)")]
    ∧ (diffRows mBase1 mPr1).get? 3 =
      some [subWrap (""), subWrap ("a.js"), subWrap ("100B"), subWrap ("200B"),
        subWrap ("100B (50.00%)")]
    ∧ pctDisplay 100 200 = ("100.00")
    ∧ subWrap ("100B (50.00%)") ≠ subWrap ("100B (100.00%)") := by decide

/-! ## C2: the comment marker -/

/-- C2 (code bug).  The body `run` posts never starts with the marker
`identifier` (the template literal starts with a newline and never
mentions the marker), so `findComment` cannot find a previously posted
comment: posting the same table twice into an issue with no comments
creates two comments instead of updating the first. -/
theorem C2_marker_never_posted :
    jsStartsWith (runMessage (diff mPos mPos)) identifier = false
    ∧ findComment [(1, runMessage (diff mPos mPos))] = none
    ∧ (commentOp (commentOp [] 1 (runMessage (diff mPos mPos))) 2
        (runMessage (diff mPos mPos))).length = 2 := by decide

/-! ## C6: missing token -/

/-- C6 counterexample.  With no token anywhere, `run` still reads both
manifests and computes the diff before failing: the failure trace
already contains `computedDiff`, so the client error does not occur
"before any manifest is diffed" (it does occur before any comment is
posted). -/
theorem C6_counterexample :
    runAction ("") none (FileContent.valid mPos) (FileContent.valid mPos) [] 1 =
      ([RunEvent.readBase, RunEvent.readPr, RunEvent.computedDiff],
        Except.error (JsError.tokenError tokenErrorMsg))
    ∧ RunEvent.computedDiff ∈
        (runAction ("") none (FileContent.valid mPos) (FileContent.valid mPos) [] 1).1 := by
  constructor
  · rfl
  · decide

/-- C6 (amended).  When no token is available from the `github_token`
input (empty) or the `GITHUB_TOKEN` environment variable (unset or
empty), the GitHub-Actions codepath fails with the descriptive
`getClient` error and no comment is listed, posted, or updated — though
the manifests have already been read and diffed at that point. -/
theorem C6_token_missing (envToken : Option String) (fcBase fcPr : FileContent)
    (comments : List CommentRec) (newId : Nat) (mB mP : Manifest)
    (henv : envToken = none ∨ envToken = some (""))
    (hB : readAndParse fcBase = Except.ok mB)
    (hP : readAndParse fcPr = Except.ok mP) :
    runAction ("") envToken fcBase fcPr comments newId =
      ([RunEvent.readBase, RunEvent.readPr, RunEvent.computedDiff],
        Except.error (JsError.tokenError tokenErrorMsg)) := by
  cases fcBase with
  | missing => simp [readAndParse] at hB
  | invalid => simp [readAndParse] at hB
  | valid mB2 =>
    cases fcPr with
    | missing => simp [readAndParse] at hP
    | invalid => simp [readAndParse] at hP
    | valid mP2 =>
      have hget : getClient ("") envToken = Except.error tokenErrorMsg := by
        rcases henv with rfl | rfl
        · rfl
        · rfl
      simp [runAction, readAndParse, hget]

theorem C6_token_missing_witness :
    runAction ("") (some ("")) (FileContent.valid mPos) (FileContent.valid mZero)
        [(5, ("hello"))] 7 =
      ([RunEvent.readBase, RunEvent.readPr, RunEvent.computedDiff],
        Except.error (JsError.tokenError tokenErrorMsg)) :=
  C6_token_missing (some ("")) (FileContent.valid mPos) (FileContent.valid mZero)
    [(5, ("hello"))] 7 mPos mZero (Or.inr rfl) rfl rfl

/-! ## C7: read/parse failures propagate -/

/-- C7.  A missing manifest file (read failure) or malformed content
(parse failure) makes both codepaths fail with that underlying error
itself — no retry, no recovery — and no table is produced (CLI returns
the error, not a table) or delivered (the Actions trace stops before
`computedDiff`, so nothing is posted). -/
theorem C7_read_parse_propagates (tok : String) (envToken : Option String)
    (fcBase fcPr : FileContent) (comments : List CommentRec) (newId : Nat) :
    (∀ e, readAndParse fcBase = Except.error e →
      mainAction fcBase fcPr = Except.error e
      ∧ runAction tok envToken fcBase fcPr comments newId = ([], Except.error e))
    ∧ (∀ mb e, readAndParse fcBase = Except.ok mb → readAndParse fcPr = Except.error e →
      mainAction fcBase fcPr = Except.error e
      ∧ runAction tok envToken fcBase fcPr comments newId =
          ([RunEvent.readBase], Except.error e)) := by
  constructor
  · intro e he
    constructor
    · simp [mainAction, he]
    · simp [runAction, he]
  · intro mb e hb he
    constructor
    · simp [mainAction, hb, he]
    · simp [runAction, hb, he]

theorem C7_read_parse_propagates_witness :
    (mainAction FileContent.missing (FileContent.valid mPos) = Except.error JsError.readError
      ∧ runAction ("t") none FileContent.missing (FileContent.valid mPos) [] 1 =
          ([], Except.error JsError.readError))
    ∧ (mainAction (FileContent.valid mPos) FileContent.invalid = Except.error JsError.parseError
      ∧ runAction ("t") none (FileContent.valid mPos) FileContent.invalid [] 1 =
          ([RunEvent.readBase], Except.error JsError.parseError)) :=
  ⟨(C7_read_parse_propagates ("t") none FileContent.missing (FileContent.valid mPos) [] 1).1
      JsError.readError rfl,
    (C7_read_parse_propagates ("t") none (FileContent.valid mPos) FileContent.invalid [] 1).2
      mPos JsError.parseError rfl rfl⟩

/-! ## C5/C9: the aggregation against the spec formula -/

/-- The outputs attributed to entrypoint `e`: those whose
`entryPoint` reference names `e`. -/
def entryOutputs (m : Manifest) (e : String) : List (String × Output) :=
  m.filter (fun po => po.2.entryPoint = some e)

/-- The stylesheet-bundle references made by the outputs of entrypoint
`e`, in order. -/
def cssRefs (m : Manifest) (e : String) : List String :=
  (entryOutputs m e).filterMap (fun po => po.2.cssBundle)

/-- The aggregated entrypoint size as the spec words it: the sum of the
byte sizes of the outputs whose emitted-entrypoint reference names the
entrypoint, plus the byte size of each (distinct) associated stylesheet
bundle those outputs reference that resolves among the manifest's
outputs.  (Outputs with no emitted-entrypoint reference appear in no
`entryOutputs` list and so contribute to no entrypoint.)  This second
definition follows the spec's words and is compared with the source's
`computeSizeByEntrypoint`. -/
def specEntrypointSize (m : Manifest) (e : String) : Nat :=
  ((entryOutputs m e).map (fun po => po.2.bytes)).sum +
    ((setDedup (cssRefs m e)).filterMap
      (fun b => (lookupOutput m b).map (fun o => o.bytes))).sum

/-- The safety condition forced by the C5/C9 counterexamples: no output
of entrypoint `e` references a stylesheet bundle that is itself an
output attributed to entrypoint `e`. -/
def refsSafe (m : Manifest) (e : String) : Bool :=
  m.all (fun po =>
    if po.2.entryPoint = some e then
      match po.2.cssBundle with
      | none => true
      | some b =>
        match lookupOutput m b with
        | none => true
        | some o => decide (¬ o.entryPoint = some e)
    else true)

theorem refsSafe_spec {m : Manifest} {e : String} (h : refsSafe m e = true) :
    ∀ po ∈ m, po.2.entryPoint = some e → ∀ b, po.2.cssBundle = some b →
      ∀ o, lookupOutput m b = some o → ¬ o.entryPoint = some e := by
  intro po hpo hep b hb o ho
  have hall := (List.all_eq_true.mp h) po hpo
  simp only [if_pos hep, hb, ho] at hall
  exact of_decide_eq_true hall

theorem lookup_of_mem_nodup {m : Manifest} (hnd : (pathsOfManifest m).Nodup)
    {p : String} {o : Output} (h : (p, o) ∈ m) : lookupOutput m p = some o := by
  induction m with
  | nil => simp at h
  | cons q rest ih =>
    have hnd' : q.1 ∉ List.map (fun x => x.1) rest ∧ (List.map (fun x => x.1) rest).Nodup := by
      simpa [pathsOfManifest] using hnd
    rcases List.mem_cons.mp h with h1 | h2
    · have hfind : ((q :: rest).find? (fun x => x.1 = p)) = some q :=
        List.find?_cons_of_pos _ (by rw [← h1]; simp)
      rw [← h1] at hfind ⊢
      simp [lookupOutput, hfind]
    · have hq1 : ¬ q.1 = p := by
        intro hq
        apply hnd'.1
        rw [hq]
        exact List.mem_map.mpr ⟨(p, o), h2, rfl⟩
      have hfind : ((q :: rest).find? (fun x => x.1 = p)) = rest.find? (fun x => x.1 = p) :=
        List.find?_cons_of_neg _ (by simpa using hq1)
      have hrec := ih (by simpa [pathsOfManifest] using hnd'.2) h2
      simp only [lookupOutput, hfind] at hrec ⊢
      exact hrec

theorem lookup_isSome_iff {m : Manifest} {p : String} :
    (lookupOutput m p).isSome = true ↔ p ∈ pathsOfManifest m := by
  constructor
  · intro h
    rcases Option.isSome_iff_exists.mp h with ⟨o, ho⟩
    simp only [lookupOutput, Option.map_eq_some'] at ho
    rcases ho with ⟨q, hq, _⟩
    have hq1 : q.1 = p := by simpa using List.find?_some hq
    exact hq1 ▸ List.mem_map.mpr ⟨q, List.mem_of_find?_eq_some hq, rfl⟩
  · intro h
    rcases List.mem_map.mp h with ⟨q, hq, rfl⟩
    have : (m.find? (fun x => x.1 = q.1)).isSome := by
      rw [List.find?_isSome]
      exact ⟨q, hq, by simp⟩
    simpa [lookupOutput] using this

theorem setDedupAux_append (a : String) :
    ∀ (l seen : List String),
      setDedupAux seen (l ++ [a]) =
        if a ∈ seen ∨ a ∈ l then setDedupAux seen l else setDedupAux seen l ++ [a] := by
  intro l
  induction l with
  | nil =>
    intro seen
    by_cases h : a ∈ seen
    · simp [setDedupAux, h]
    · simp [setDedupAux, h]
  | cons x xs ih =>
    intro seen
    have hstep : (x :: xs) ++ [a] = x :: (xs ++ [a]) := rfl
    rw [hstep]
    show (if x ∈ seen then setDedupAux seen (xs ++ [a])
          else x :: setDedupAux (x :: seen) (xs ++ [a])) =
      if a ∈ seen ∨ a ∈ x :: xs then
        (if x ∈ seen then setDedupAux seen xs else x :: setDedupAux (x :: seen) xs)
      else
        (if x ∈ seen then setDedupAux seen xs else x :: setDedupAux (x :: seen) xs) ++ [a]
    rw [ih seen, ih (x :: seen)]
    by_cases hx : x ∈ seen
    · simp only [if_pos hx]
      split_ifs with h1 h2 h2
      · rfl
      · exact absurd (h1.imp id (List.mem_cons_of_mem x)) h2
      · exfalso
        rcases h2 with h | h
        · exact h1 (Or.inl h)
        · rcases List.mem_cons.mp h with rfl | h3
          · exact h1 (Or.inl hx)
          · exact h1 (Or.inr h3)
      · rfl
    · simp only [if_neg hx]
      split_ifs with h1 h2 h2
      · rfl
      · exfalso
        rcases h1 with h | h
        · rcases List.mem_cons.mp h with rfl | h3
          · exact h2 (Or.inr (List.mem_cons_self a xs))
          · exact h2 (Or.inl h3)
        · exact h2 (Or.inr (List.mem_cons_of_mem x h))
      · exfalso
        rcases h2 with h | h
        · exact h1 (Or.inl (List.mem_cons_of_mem x h))
        · rcases List.mem_cons.mp h with rfl | h3
          · exact h1 (Or.inl (List.mem_cons_self a seen))
          · exact h1 (Or.inr h3)
      · rfl

theorem setDedup_append (l : List String) (a : String) :
    setDedup (l ++ [a]) = if a ∈ l then setDedup l else setDedup l ++ [a] := by
  have h := setDedupAux_append a l []
  simpa [setDedup] using h

/-- The loop invariant of `computeSizeByEntrypoint` for entrypoint `e`
after processing the prefix `pre` of manifest `m`: the accumulated
bytes equal the spec formula over the prefix; the accumulated paths are
exactly the prefix's entrypoint-output paths plus its distinct
resolvable bundle references; no path is accumulated twice; and every
accumulated pair carries the byte size of the manifest output at its
path. -/
def aggInv (m : Manifest) (e : String) (pre : Manifest) (acc : List (String × Nat)) : Prop :=
  ((acc.map (fun q => q.2)).sum =
      ((entryOutputs pre e).map (fun po => po.2.bytes)).sum +
        ((setDedup (cssRefs pre e)).filterMap
          (fun b => (lookupOutput m b).map (fun o => o.bytes))).sum)
  ∧ (∀ p, p ∈ acc.map (fun q => q.1) ↔
      p ∈ (entryOutputs pre e).map (fun po => po.1) ∨
        (p ∈ setDedup (cssRefs pre e) ∧ (lookupOutput m p).isSome = true))
  ∧ (acc.map (fun q => q.1)).Nodup
  ∧ (∀ q ∈ acc, ∃ o, lookupOutput m q.1 = some o ∧ q.2 = o.bytes)

theorem entry_paths_subset (pre : Manifest) (e : String) :
    ∀ p, p ∈ (entryOutputs pre e).map (fun po => po.1) → p ∈ pathsOfManifest pre := by
  intro p hp
  rcases List.mem_map.mp hp with ⟨q, hq, rfl⟩
  exact List.mem_map.mpr ⟨q, (List.mem_filter.mp hq).1, rfl⟩

set_option maxHeartbeats 2000000 in
theorem aggInv_step (m : Manifest) (e : String)
    (hnd : (pathsOfManifest m).Nodup) (hsafe : refsSafe m e = true)
    (pre rest : List (String × Output)) (po : String × Output)
    (hm : m = pre ++ po :: rest)
    (acc : List (String × Nat)) (hinv : aggInv m e pre acc) :
    aggInv m e (pre ++ [po]) (addOutput m e acc po) := by
  obtain ⟨hS, hP, hN, hB⟩ := hinv
  have hpom : po ∈ m := by
    rw [hm]; exact List.mem_append_right _ (List.mem_cons_self po rest)
  have hprem : ∀ q, q ∈ pre → q ∈ m := by
    intro q hq; rw [hm]; exact List.mem_append_left _ hq
  have hpo1pre : po.1 ∉ pathsOfManifest pre := by
    intro hc
    have hnd2 : (pathsOfManifest pre ++ po.1 :: pathsOfManifest rest).Nodup := by
      simpa [pathsOfManifest, hm] using hnd
    exact (List.disjoint_of_nodup_append hnd2) hc (List.mem_cons_self po.1 _)
  by_cases hp : po.2.entryPoint = some e
  · -- the output is attributed to entrypoint e
    have hEO : entryOutputs (pre ++ [po]) e = entryOutputs pre e ++ [po] := by
      simp [entryOutputs, List.filter_append, List.filter_cons, hp]
    have hlookpo : lookupOutput m po.1 = some po.2 := lookup_of_mem_nodup hnd hpom
    have hpo1reg : po.1 ∉ (entryOutputs pre e).map (fun po => po.1) :=
      fun hc => hpo1pre (entry_paths_subset pre e po.1 hc)
    have hpo1bun :
        ¬ (po.1 ∈ setDedup (cssRefs pre e) ∧ (lookupOutput m po.1).isSome = true) := by
      rintro ⟨hmem, _⟩
      rw [mem_setDedup] at hmem
      rcases List.mem_filterMap.mp hmem with ⟨q, hq, hqcss⟩
      have hqpre : q ∈ pre := (List.mem_filter.mp hq).1
      have hqep : q.2.entryPoint = some e := by
        simpa using (List.mem_filter.mp hq).2
      exact refsSafe_spec hsafe q (hprem q hqpre) hqep po.1 hqcss po.2 hlookpo hp
    have hpo1acc : po.1 ∉ acc.map (fun q => q.1) := by
      rw [hP]
      rintro (hc | hc)
      · exact hpo1reg hc
      · exact hpo1bun hc
    cases hcss : po.2.cssBundle with
    | none =>
      have hadd : addOutput m e acc po = acc ++ [(po.1, po.2.bytes)] := by
        simp [addOutput, hp, hcss]
      have hCR : cssRefs (pre ++ [po]) e = cssRefs pre e := by
        simp [cssRefs, hEO, List.filterMap_append, hcss]
      rw [hadd]
      refine ⟨?_, ?_, ?_, ?_⟩
      · simp only [hEO, hCR, List.map_append, List.sum_append]
        rw [hS]; simp; omega
      · intro p
        simp only [hEO, hCR, List.map_append, List.mem_append, List.mem_singleton, hP p,
          List.map_cons, List.map_nil, List.mem_cons]
        tauto
      · simp only [List.map_append, List.map_cons, List.map_nil]
        rw [List.nodup_append]
        exact ⟨hN, List.nodup_singleton _, by simpa using hpo1acc⟩
      · intro q hq
        rcases List.mem_append.mp hq with hq1 | hq1
        · exact hB q hq1
        · rw [List.mem_singleton.mp hq1]
          exact ⟨po.2, hlookpo, rfl⟩
    | some b =>
      have hCR : cssRefs (pre ++ [po]) e = cssRefs pre e ++ [b] := by
        simp [cssRefs, hEO, List.filterMap_append, hcss]
      cases hlb : lookupOutput m b with
      | none =>
        have hadd : addOutput m e acc po = acc ++ [(po.1, po.2.bytes)] := by
          simp [addOutput, hp, hcss, hlb]
        have hbi : ¬ ((lookupOutput m b).isSome = true) := by simp [hlb]
        rw [hadd]
        refine ⟨?_, ?_, ?_, ?_⟩
        · simp only [hEO, hCR, List.map_append, List.sum_append]
          rw [hS]
          by_cases hbrefs : b ∈ cssRefs pre e
          · rw [setDedup_append, if_pos hbrefs]; simp; omega
          · rw [setDedup_append, if_neg hbrefs, List.filterMap_append]
            simp [hlb]; omega
        · intro p
          have hmemiff : (p ∈ setDedup (cssRefs pre e ++ [b]) ∧ (lookupOutput m p).isSome = true)
              ↔ (p ∈ setDedup (cssRefs pre e) ∧ (lookupOutput m p).isSome = true) := by
            constructor
            · rintro ⟨hmem, hsome⟩
              rw [mem_setDedup, List.mem_append, List.mem_singleton] at hmem
              rcases hmem with hmem | rfl
              · exact ⟨mem_setDedup.mpr hmem, hsome⟩
              · exact absurd hsome hbi
            · rintro ⟨hmem, hsome⟩
              exact ⟨mem_setDedup.mpr (List.mem_append_left _ (mem_setDedup.mp hmem)), hsome⟩
          simp only [hEO, hCR, List.map_append, List.mem_append, List.mem_singleton, hmemiff,
            hP p, List.map_cons, List.map_nil, List.mem_cons]
          tauto
        · simp only [List.map_append, List.map_cons, List.map_nil]
          rw [List.nodup_append]
          exact ⟨hN, List.nodup_singleton _, by simpa using hpo1acc⟩
        · intro q hq
          rcases List.mem_append.mp hq with hq1 | hq1
          · exact hB q hq1
          · rw [List.mem_singleton.mp hq1]
            exact ⟨po.2, hlookpo, rfl⟩
      | some cssOut =>
        have hsafe_po : ¬ cssOut.entryPoint = some e :=
          refsSafe_spec hsafe po hpom hp b hcss cssOut hlb
        have hbne : ¬ b = po.1 := by
          intro hb1
          rw [hb1, hlookpo] at hlb
          exact hsafe_po (by injection hlb with h2; rw [← h2]; exact hp)
        have hbreg : b ∉ (entryOutputs pre e).map (fun po => po.1) := by
          intro hc
          rcases List.mem_map.mp hc with ⟨q, hq, hq1⟩
          have hqpre : q ∈ pre := (List.mem_filter.mp hq).1
          have hqep : q.2.entryPoint = some e := by
            simpa using (List.mem_filter.mp hq).2
          have hlq : lookupOutput m b = some q.2 := by
            rw [← hq1]; exact lookup_of_mem_nodup hnd (hprem q hqpre)
          rw [hlb] at hlq
          exact hsafe_po (by injection hlq with h2; rw [h2]; exact hqep)
        have hbsome : (lookupOutput m b).isSome = true := by simp [hlb]
        have htest : ((acc ++ [(po.1, po.2.bytes)]).any (fun q => q.1 = b) = true)
            ↔ b ∈ cssRefs pre e := by
          constructor
          · intro h
            rcases List.any_eq_true.mp h with ⟨x, hx, hxb⟩
            have hxb2 : x.1 = b := by simpa using hxb
            rcases List.mem_append.mp hx with hx1 | hx1
            · have hbacc : b ∈ acc.map (fun q => q.1) :=
                hxb2 ▸ List.mem_map.mpr ⟨x, hx1, rfl⟩
              rcases (hP b).mp hbacc with hc | hc
              · exact absurd hc hbreg
              · exact mem_setDedup.mp hc.1
            · exfalso
              have : x = (po.1, po.2.bytes) := List.mem_singleton.mp hx1
              rw [this] at hxb2
              exact hbne hxb2.symm
          · intro h
            have hbacc : b ∈ acc.map (fun q => q.1) :=
              (hP b).mpr (Or.inr ⟨mem_setDedup.mpr h, hbsome⟩)
            rcases List.mem_map.mp hbacc with ⟨x, hx, hxb⟩
            exact List.any_eq_true.mpr ⟨x, List.mem_append_left _ hx, by simp [hxb]⟩
        by_cases hbrefs : b ∈ cssRefs pre e
        · -- the bundle is already accumulated: the dedup check skips it
          have hadd : addOutput m e acc po = acc ++ [(po.1, po.2.bytes)] := by
            simp only [addOutput, if_pos hp, hcss, hlb]
            rw [if_pos (htest.mpr hbrefs)]
          rw [hadd]
          refine ⟨?_, ?_, ?_, ?_⟩
          · simp only [hEO, hCR, List.map_append, List.sum_append]
            rw [hS, setDedup_append, if_pos hbrefs]
            simp; omega
          · intro p
            have hmemiff : p ∈ setDedup (cssRefs pre e ++ [b]) ↔ p ∈ setDedup (cssRefs pre e) := by
              rw [mem_setDedup, mem_setDedup, List.mem_append, List.mem_singleton]
              constructor
              · rintro (h | rfl)
                · exact h
                · exact hbrefs
              · exact Or.inl
            simp only [hEO, hCR, List.map_append, List.mem_append, List.mem_singleton, hmemiff,
              hP p, List.map_cons, List.map_nil, List.mem_cons]
            tauto
          · simp only [List.map_append, List.map_cons, List.map_nil]
            rw [List.nodup_append]
            exact ⟨hN, List.nodup_singleton _, by simpa using hpo1acc⟩
          · intro q hq
            rcases List.mem_append.mp hq with hq1 | hq1
            · exact hB q hq1
            · rw [List.mem_singleton.mp hq1]
              exact ⟨po.2, hlookpo, rfl⟩
        · -- a fresh bundle reference: it is pushed after the output
          have hadd : addOutput m e acc po =
              (acc ++ [(po.1, po.2.bytes)]) ++ [(b, cssOut.bytes)] := by
            simp only [addOutput, if_pos hp, hcss, hlb]
            rw [if_neg (fun hc => hbrefs (htest.mp hc))]
          have hbacc : b ∉ acc.map (fun q => q.1) := by
            intro hc
            rcases (hP b).mp hc with hc2 | hc2
            · exact hbreg hc2
            · exact hbrefs (mem_setDedup.mp hc2.1)
          rw [hadd]
          refine ⟨?_, ?_, ?_, ?_⟩
          · simp only [hEO, hCR, List.map_append, List.sum_append]
            rw [hS, setDedup_append, if_neg hbrefs, List.filterMap_append]
            simp [hlb]; omega
          · intro p
            have hmemiff : p ∈ setDedup (cssRefs pre e ++ [b]) ↔
                p ∈ setDedup (cssRefs pre e) ∨ p = b := by
              rw [mem_setDedup, mem_setDedup, List.mem_append, List.mem_singleton]
            have hpb : p = b → (lookupOutput m p).isSome = true := fun hc => hc ▸ hbsome
            simp only [hEO, hCR, List.map_append, List.mem_append, List.mem_singleton, hmemiff,
              hP p, List.map_cons, List.map_nil, List.mem_cons, List.not_mem_nil, or_false]
            constructor
            · rintro ((hc | hc) | hc)
              · rcases hc with hc2 | hc2
                · exact Or.inl (Or.inl hc2)
                · exact Or.inr ⟨Or.inl hc2.1, hc2.2⟩
              · exact Or.inl (Or.inr hc)
              · exact Or.inr ⟨Or.inr hc, hpb hc⟩
            · rintro ((hc | hc) | ⟨hc1 | hc1, hc2⟩)
              · exact Or.inl (Or.inl (Or.inl hc))
              · exact Or.inl (Or.inr hc)
              · exact Or.inl (Or.inl (Or.inr ⟨hc1, hc2⟩))
              · exact Or.inr hc1
          · simp only [List.map_append, List.map_cons, List.map_nil]
            rw [List.nodup_append, List.nodup_append]
            refine ⟨⟨hN, List.nodup_singleton _, by simpa using hpo1acc⟩,
              List.nodup_singleton _, ?_⟩
            intro x hx
            rcases List.mem_append.mp hx with hx1 | hx1
            · rcases List.mem_map.mp hx1 with ⟨y, hy, rfl⟩
              simp only [List.mem_singleton]
              intro hc
              exact hbacc (hc ▸ List.mem_map.mpr ⟨y, hy, rfl⟩)
            · simp only [List.mem_singleton] at hx1
              simp only [hx1, List.mem_singleton]
              intro hc
              exact hbne hc.symm
          · intro q hq
            rcases List.mem_append.mp hq with hq1 | hq1
            · rcases List.mem_append.mp hq1 with hq2 | hq2
              · exact hB q hq2
              · rw [List.mem_singleton.mp hq2]
                exact ⟨po.2, hlookpo, rfl⟩
            · rw [List.mem_singleton.mp hq1]
              exact ⟨cssOut, hlb, rfl⟩
  · -- the output is not attributed to entrypoint e: nothing changes
    have hadd : addOutput m e acc po = acc := addOutput_of_ne hp
    have hEO : entryOutputs (pre ++ [po]) e = entryOutputs pre e := by
      simp [entryOutputs, List.filter_append, List.filter_cons, hp]
    have hCR : cssRefs (pre ++ [po]) e = cssRefs pre e := by
      simp [cssRefs, hEO]
    rw [hadd]
    exact ⟨by rw [hEO, hCR]; exact hS,
      by intro p; rw [hEO, hCR]; exact hP p, hN, hB⟩

theorem sizeAux_inv (m : Manifest) (e : String)
    (hnd : (pathsOfManifest m).Nodup) (hsafe : refsSafe m e = true) :
    ∀ (rest pre : List (String × Output)) (acc : List (String × Nat)),
      m = pre ++ rest → aggInv m e pre acc → aggInv m e m (sizeAux m e rest acc) := by
  intro rest
  induction rest with
  | nil =>
    intro pre acc hm hinv
    have hpm : m = pre := by simpa using hm
    subst hpm
    exact hinv
  | cons po rest2 ih =>
    intro pre acc hm hinv
    simp only [sizeAux]
    apply ih (pre ++ [po]) (addOutput m e acc po)
    · rw [hm, List.append_assoc]
      rfl
    · exact aggInv_step m e hnd hsafe pre rest2 po hm acc hinv

theorem aggInv_final (m : Manifest) (e : String)
    (hnd : (pathsOfManifest m).Nodup) (hsafe : refsSafe m e = true) :
    aggInv m e m (computeSizeByEntrypoint m e) := by
  apply sizeAux_inv m e hnd hsafe m [] []
  · simp
  · refine ⟨?_, ?_, ?_, ?_⟩ <;>
      simp [aggInv, entryOutputs, cssRefs, setDedup, setDedupAux]

/-- C5 (amended).  The aggregated size of entrypoint `e` — the byte sum
of the list `computeSizeByEntrypoint` builds — equals the spec formula
`specEntrypointSize`: the sum of the byte sizes of the outputs whose
emitted-entrypoint reference names `e`, plus the byte size of each
distinct resolvable stylesheet bundle those outputs reference.  The
manifest keys are unique (a JSON-object invariant the spec states), and
no referenced bundle may itself be an output attributed to `e`
(`refsSafe`, forced by `C5_counterexample`). -/
theorem C5_entrypoint_aggregation (m : Manifest) (e : String)
    (hnd : (pathsOfManifest m).Nodup) (hsafe : refsSafe m e = true) :
    ((computeSizeByEntrypoint m e).map (fun q => q.2)).sum = specEntrypointSize m e :=
  (aggInv_final m e hnd hsafe).1

/-- A well-behaved manifest: entrypoint `app` has a 100-byte JS output
referencing a 20-byte stylesheet; a 7-byte chunk belongs to no
entrypoint. -/
def mCss : Manifest :=
  [(("app.js"), ⟨some ("app"), 100, some ("app.css")⟩),
    (("app.css"), ⟨none, 20, none⟩),
    (("chunk.js"), ⟨none, 7, none⟩)]

theorem C5_entrypoint_aggregation_witness :
    ((computeSizeByEntrypoint mCss ("app")).map (fun q => q.2)).sum =
      specEntrypointSize mCss ("app") :=
  C5_entrypoint_aggregation mCss ("app") (by decide) (by decide)

/-- C5 counterexample.  In `mCssSelf` the stylesheet `b.css` is itself
an output attributed to entrypoint `e` and is listed before the output
`a.js` that references it: the code's dedup check then counts `b.css`
once (total 15), while the spec formula counts it both as an output of
`e` and as a referenced bundle (total 20). -/
def mCssSelf : Manifest :=
  [(("b.css"), ⟨some ("e"), 5, none⟩), (("a.js"), ⟨some ("e"), 10, some ("b.css")⟩)]

theorem C5_counterexample :
    ((computeSizeByEntrypoint mCssSelf ("e")).map (fun q => q.2)).sum = 15
    ∧ specEntrypointSize mCssSelf ("e") = 20
    ∧ (15 : Nat) ≠ 20 := by decide

/-- C9 (amended).  Under unique keys and `refsSafe` (forced by
`C9_counterexample`): no path appears twice in an entrypoint's size
list — in particular a bundle referenced by several outputs of the
entrypoint is counted only once; every listed pair carries the byte
size of the manifest output at its path (so a bundle reference that
does not resolve among the outputs contributes nothing); and the listed
paths are exactly the entrypoint's output paths plus its distinct
resolvable bundle references. -/
theorem C9_css_counted_once (m : Manifest) (e : String)
    (hnd : (pathsOfManifest m).Nodup) (hsafe : refsSafe m e = true) :
    ((computeSizeByEntrypoint m e).map (fun q => q.1)).Nodup
    ∧ (∀ q ∈ computeSizeByEntrypoint m e, ∃ o, lookupOutput m q.1 = some o ∧ q.2 = o.bytes)
    ∧ (∀ p, p ∈ (computeSizeByEntrypoint m e).map (fun q => q.1) ↔
        p ∈ (entryOutputs m e).map (fun po => po.1) ∨
          (p ∈ setDedup (cssRefs m e) ∧ (lookupOutput m p).isSome = true)) :=
  ⟨(aggInv_final m e hnd hsafe).2.2.1, (aggInv_final m e hnd hsafe).2.2.2,
    (aggInv_final m e hnd hsafe).2.1⟩

theorem C9_css_counted_once_witness :
    ((computeSizeByEntrypoint mCss ("app")).map (fun q => q.1)).Nodup
    ∧ (∀ q ∈ computeSizeByEntrypoint mCss ("app"),
        ∃ o, lookupOutput mCss q.1 = some o ∧ q.2 = o.bytes)
    ∧ (∀ p, p ∈ (computeSizeByEntrypoint mCss ("app")).map (fun q => q.1) ↔
        p ∈ (entryOutputs mCss ("app")).map (fun po => po.1) ∨
          (p ∈ setDedup (cssRefs mCss ("app")) ∧ (lookupOutput mCss p).isSome = true)) :=
  C9_css_counted_once mCss ("app") (by decide) (by decide)

/-- C9 counterexample.  `b.css` is referenced by both `a.js` and `c.js`
(outputs of entrypoint `e`) and is itself an output attributed to `e`,
listed after `a.js`: it ends up twice in `e`'s size list (once as a
bundle reference, once as an output), so its 5 bytes are counted twice
(total 30 instead of 25). -/
def mCssTwice : Manifest :=
  [(("a.js"), ⟨some ("e"), 10, some ("b.css")⟩),
    (("c.js"), ⟨some ("e"), 10, some ("b.css")⟩),
    (("b.css"), ⟨some ("e"), 5, none⟩)]

theorem C9_counterexample :
    (computeSizeByEntrypoint mCssTwice ("e")).map (fun q => q.1) =
      [("a.js"), ("b.css"), ("c.js"), ("b.css")]
    ∧ ¬ ((computeSizeByEntrypoint mCssTwice ("e")).map (fun q => q.1)).Nodup
    ∧ ((computeSizeByEntrypoint mCssTwice ("e")).map (fun q => q.2)).sum = 30 := by
  decide

/-! ## C10: pipe escaping -/

/-- Whether the last character before position `l` is a backslash,
threading the incoming state `b`. -/
def endsBS (b : Bool) : List Char → Bool
  | [] => b
  | c :: rest => endsBS (c = '\\') rest

theorem cuB_append : ∀ (xs ys : List Char) (b : Bool),
    cuB b (xs ++ ys) = cuB b xs + cuB (endsBS b xs) ys := by
  intro xs
  induction xs with
  | nil => intro ys b; simp [cuB, endsBS]
  | cons c rest ih =>
    intro ys b
    show ((if c = '|' ∧ b = false then 1 else 0) + cuB (decide (c = '\\')) (rest ++ ys)) =
      ((if c = '|' ∧ b = false then 1 else 0) + cuB (decide (c = '\\')) rest) +
        cuB (endsBS (decide (c = '\\')) rest) ys
    rw [ih ys (decide (c = '\\'))]
    omega

theorem cuB_escape : ∀ (l : List Char) (b : Bool), cuB b (escapePipesL l) = 0 := by
  intro l
  induction l with
  | nil => intro b; rfl
  | cons c rest ih =>
    intro b
    have h1 : escapePipesL (c :: rest) =
        (if c = '|' then ['\\', '|'] else [c]) ++ escapePipesL rest := by
      simp [escapePipesL]
    by_cases hc : c = '|'
    · subst hc
      rw [h1, if_pos rfl]
      show (if ('\\' : Char) = '|' ∧ b = false then 1 else 0) +
        ((if ('|' : Char) = '|' ∧ (decide (('\\' : Char) = '\\')) = false then 1 else 0) +
          cuB (decide (('|' : Char) = '\\')) (escapePipesL rest)) = 0
      rw [if_neg (by simp), if_neg (by simp), ih]
    · rw [h1, if_neg hc]
      show (if c = '|' ∧ b = false then 1 else 0) +
        cuB (decide (c = '\\')) (escapePipesL rest) = 0
      rw [if_neg (by simp [hc]), ih]

theorem cuB_escape_data (b : Bool) (s : String) : cuB b (escapePipes s).data = 0 :=
  cuB_escape s.data b

theorem cuB_sep3 (b : Bool) : cuB b [' ', '|', ' '] = 1 := by
  cases b <;> decide

theorem cuB_end2 (b : Bool) : cuB b [' ', '|'] = 1 := by
  cases b <;> decide

theorem cuB_start2 : cuB false ['|', ' '] = 1 := by decide

theorem intercalate5 (s a b c d e : String) :
    String.intercalate s [a, b, c, d, e] = a ++ s ++ b ++ s ++ c ++ s ++ d ++ s ++ e := by
  simp [String.intercalate, String.intercalate.go]

theorem renderRow5_count (s1 s2 s3 s4 s5 : String) :
    countUnescaped (renderRow [s1, s2, s3, s4, s5]).data = 6 := by
  have hmap : [s1, s2, s3, s4, s5].map escapePipes =
      [escapePipes s1, escapePipes s2, escapePipes s3, escapePipes s4, escapePipes s5] := rfl
  rw [renderRow, hmap, intercalate5]
  simp only [String.data_append, countUnescaped, cuB_append, cuB_escape_data, cuB_sep3,
    cuB_end2, cuB_start2]

/-- C10.  Every `|` inside a cell is escaped as `\|` by `escapePipes`,
so each rendered line of the table contains exactly six unescaped
column separators — the ones of the fixed five-column layout — whatever
the entrypoint and path names contain. -/
theorem C10_pipes_escaped (base pr : Manifest) :
    ∀ row ∈ diffRows base pr, countUnescaped (renderRow row).data = 6 := by
  intro row hrow
  simp only [diffRows, List.mem_cons] at hrow
  rcases hrow with rfl | rfl | hrow
  · exact renderRow5_count _ _ _ _ _
  · exact renderRow5_count _ _ _ _ _
  · rcases List.mem_flatMap.mp hrow with ⟨e, _, hre⟩
    simp only [entrypointRows, List.mem_cons] at hre
    rcases hre with rfl | hre
    · exact renderRow5_count _ _ _ _ _
    · rcases List.mem_map.mp hre with ⟨p, _, rfl⟩
      exact renderRow5_count _ _ _ _ _

theorem C10_pipes_escaped_witness :
    countUnescaped (renderRow headerRow).data = 6 :=
  C10_pipes_escaped [] [] headerRow (by decide)

end BundleDiff
